import Mathlib

/-!
Verification of the selector parser and tree-search engine of the
`html_query` module: shallow embedding of `src/html_query.rs` together
with theorems about parsing, matching, search order and de-duplication.

Rust strings are embedded as lists of characters (`Str`).  The byte-level
operations the source performs (`&s[1..]` slicing, which panics when byte 1
is not a character boundary) are modelled explicitly via the UTF-8 width of
the first character.  Fallible Rust functions returning `anyhow::Result`
are embedded with the outcome type `PRes`: `ok` for `Ok`, `err` for `Err`
(the formatted message strings are abstracted away), and `panic` for a
Rust panic (failed `assert!` or out-of-bounds / non-boundary slicing).
-/

abbrev Str := List Char

/-- UTF-8 byte width of a character, as used by Rust string indexing. -/
def utf8Width (c : Char) : Nat :=
  if c.toNat < 128 then 1
  else if c.toNat < 2048 then 2
  else if c.toNat < 65536 then 3
  else 4

/-- Rust `char::is_whitespace`: the Unicode `White_Space` property. -/
def rustIsWhitespace (c : Char) : Bool :=
  let n := c.toNat
  (9 ≤ n && n ≤ 13) || n = 32 || n = 133 || n = 160 || n = 5760 ||
  (8192 ≤ n && n ≤ 8202) || n = 8232 || n = 8233 || n = 8239 || n = 8287 || n = 12288

/-- Rust `char::is_ascii_whitespace`: space, tab, newline, form feed, carriage return. -/
def isAsciiWhitespace (c : Char) : Bool :=
  let n := c.toNat
  n = 32 || n = 9 || n = 10 || n = 12 || n = 13

/-- Rust `str::split` with a character predicate: splits at every separator,
keeping empty segments (`"" → [""]`, `",". → ["", ""]`). -/
def splitCharP (p : Char → Bool) : Str → List Str
  | [] => [[]]
  | c :: rest =>
    match splitCharP p rest with
    | [] => [[]]
    | t :: ts => if p c then [] :: t :: ts else (c :: t) :: ts

/-- Rust `str::split(sep)` for a single separator character. -/
def splitChar (sep : Char) (s : Str) : List Str :=
  splitCharP (fun c => c = sep) s

/-- Rust `str::split_ascii_whitespace`: splits on ASCII whitespace runs and
yields only the non-empty tokens. -/
def split_ascii_whitespace (s : Str) : List Str :=
  (splitCharP isAsciiWhitespace s).filter (fun t => !t.isEmpty)

/-- Rust `&s[1..]`: drops the first byte.  Returns `none` (a panic) when the
string is empty (index out of bounds) or its first character is multi-byte
(byte 1 is not a character boundary); otherwise drops the first character. -/
def sliceFrom1 (s : Str) : Option Str :=
  match s with
  | [] => none
  | c :: rest => if utf8Width c = 1 then some rest else none

/-- Outcome of a fallible Rust computation: `Ok`, `Err` (message abstracted),
or a panic (failed `assert!` / invalid slice). -/
inductive PRes (α : Type) where
  | ok : α → PRes α
  | err : PRes α
  | panic : PRes α
deriving DecidableEq, Repr

/-- The `BasicSelector` enum of `html_query.rs`. -/
inductive BasicSelector where
  | All : BasicSelector
  | Id : Str → BasicSelector
  | Element : Str → BasicSelector
  | Class : Str → BasicSelector
  | IdWithClasses : Str → List Str → BasicSelector
  | ElementWithClasses : Str → List Str → BasicSelector
  | ClassList : List Str → BasicSelector
deriving DecidableEq, Repr

/-- The `Selector` enum of `html_query.rs`.  The source stores a
`Vec<BasicSelector>` in `Hierarchical` and indexes `[0]` unconditionally;
the parser only ever builds vectors of length ≥ 2 (`assert!(len > 1)`), so
the head is stored separately here and the assert is modelled where the
vector is built. -/
inductive Selector where
  | Basic : BasicSelector → Selector
  | Hierarchical : BasicSelector → List BasicSelector → Selector
deriving DecidableEq, Repr

/-- `parse_individual_selector_string` from `html_query.rs`.  The two
`assert!`s (no whitespace; no `'.'` after the first character, whose check
slices `&s[1..]` and can itself panic on a multi-byte first character) are
modelled as `panic` outcomes. -/
def parse_individual_selector_string (s : Str) : PRes BasicSelector :=
  if s.any rustIsWhitespace then PRes.panic
  else
    match sliceFrom1 s with
    | none => PRes.panic
    | some s1 =>
      if s1.contains '.' then PRes.panic
      else if s = ['*'] then PRes.ok BasicSelector.All
      else
        match s with
        | '.' :: cls =>
          if cls.isEmpty then PRes.err
          else PRes.ok (BasicSelector.Class cls)
        | '#' :: i =>
          if i.isEmpty then PRes.err
          else
            match sliceFrom1 i with
            | none => PRes.panic
            | some i1 =>
              if i1.contains '#' || i1.contains '#' then PRes.err
              else PRes.ok (BasicSelector.Id i)
        | _ => PRes.ok (BasicSelector.Element s)

/-- The tail of `parese_complex_selector`: classify the first segment and
build the compound variant.  `parts2` is the (possibly re-sliced)
`class_parts` vector and `first_selector` the string used to determine the
anchor type. -/
def finishComplex (parts2 : List Str) (first_selector : Str) : PRes BasicSelector :=
  match parse_individual_selector_string first_selector with
  | PRes.ok BasicSelector.All => PRes.err
  | PRes.ok (BasicSelector.Element name) =>
    PRes.ok (BasicSelector.ElementWithClasses name parts2.tail)
  | PRes.ok (BasicSelector.Id i) => PRes.ok (BasicSelector.IdWithClasses i parts2.tail)
  | PRes.ok (BasicSelector.Class _) => PRes.ok (BasicSelector.ClassList parts2)
  | PRes.ok _ => PRes.err
  | PRes.err => PRes.err
  | PRes.panic => PRes.panic

/-- `parese_complex_selector` from `html_query.rs` (source spelling kept).
Splits on `'.'`; one part delegates to the individual parser, as does the
`len == 2 && parts[0].is_empty()` single-class case; otherwise, when
`parts[0]` is empty the vector is re-sliced to `parts[1..]` and the anchor
string is `".{class_parts[1]}"` of the re-sliced vector (i.e. the second
class), else the anchor string is `parts[0]`. -/
def parese_complex_selector (s : Str) : PRes BasicSelector :=
  if s.any rustIsWhitespace then PRes.panic
  else
    match splitChar '.' s with
    | [] => PRes.err
    | [_] => parse_individual_selector_string s
    | [p0, p1] =>
      if p0.isEmpty then parse_individual_selector_string s
      else finishComplex [p0, p1] p0
    | p0 :: p1 :: p2 :: rest =>
      if p0.isEmpty then finishComplex (p1 :: p2 :: rest) ('.' :: p2)
      else finishComplex (p0 :: p1 :: p2 :: rest) p0

/-- Parse every whitespace-separated token of one comma item
(`parese_complex_selector` in a loop, first failure aborting). -/
def parse_basic_selectors : List Str → PRes (List BasicSelector)
  | [] => PRes.ok []
  | t :: ts =>
    match parese_complex_selector t with
    | PRes.ok b =>
      match parse_basic_selectors ts with
      | PRes.ok bs => PRes.ok (b :: bs)
      | PRes.err => PRes.err
      | PRes.panic => PRes.panic
    | PRes.err => PRes.err
    | PRes.panic => PRes.panic

/-- The per-item loop of `parse_selector_string`: zero tokens is an error,
one token yields `Selector::Basic`, several yield `Selector::Hierarchical`
(with `assert!(hierarchical_selectors.len() > 1)` modelled as a panic on
the impossible short result). -/
def parse_items : List Str → PRes (List Selector)
  | [] => PRes.ok []
  | item :: rest =>
    match split_ascii_whitespace item with
    | [] => PRes.err
    | [t] =>
      match parese_complex_selector t with
      | PRes.ok b =>
        match parse_items rest with
        | PRes.ok sels => PRes.ok (Selector.Basic b :: sels)
        | PRes.err => PRes.err
        | PRes.panic => PRes.panic
      | PRes.err => PRes.err
      | PRes.panic => PRes.panic
    | t0 :: t1 :: ts =>
      match parse_basic_selectors (t0 :: t1 :: ts) with
      | PRes.ok (b0 :: b1 :: brest) =>
        match parse_items rest with
        | PRes.ok sels => PRes.ok (Selector.Hierarchical b0 (b1 :: brest) :: sels)
        | PRes.err => PRes.err
        | PRes.panic => PRes.panic
      | PRes.ok _ => PRes.panic
      | PRes.err => PRes.err
      | PRes.panic => PRes.panic

/-- `parse_selector_string` from `html_query.rs`: split on commas and parse
each item. -/
def parse_selector_string (s : Str) : PRes (List Selector) :=
  parse_items (splitChar ',' s)

/-!
The document tree of the `html_parser` collaborator, as consumed by
`html_query.rs`: `Element { name, id, classes, children }` and
`Node = Element | Text | Comment`.  Rust's derived `PartialEq` on these
types is structural; it is embedded as the boolean equalities below, which
coincide with propositional equality (`eBeq_iff`), so `Vec::contains` on
`Vec<&Element>` — which compares the referenced values — is embedded as
list membership of `Element` values.
-/

mutual
inductive Element where
  | mk : Str → Option Str → List Str → List Node → Element
inductive Node where
  | Element : Element → Node
  | Text : Str → Node
  | Comment : Str → Node
end

def Element.name : Element → Str
  | Element.mk n _ _ _ => n

def Element.id : Element → Option Str
  | Element.mk _ i _ _ => i

def Element.classes : Element → List Str
  | Element.mk _ _ c _ => c

def Element.children : Element → List Node
  | Element.mk _ _ _ ch => ch

/-- The `Dom` of the `html_parser` collaborator: a list of top-level nodes. -/
structure Dom where
  children : List Node

mutual
def eBeq : Element → Element → Bool
  | Element.mk n1 i1 c1 ch1, Element.mk n2 i2 c2 ch2 =>
    (n1 == n2) && (i1 == i2) && (c1 == c2) && nlBeq ch1 ch2
def nBeq : Node → Node → Bool
  | Node.Element e1, Node.Element e2 => eBeq e1 e2
  | Node.Text t1, Node.Text t2 => t1 == t2
  | Node.Comment t1, Node.Comment t2 => t1 == t2
  | _, _ => false
def nlBeq : List Node → List Node → Bool
  | [], [] => true
  | a :: as1, b :: bs1 => nBeq a b && nlBeq as1 bs1
  | _, _ => false
end

mutual
def eBeq_iff : ∀ a b : Element, eBeq a b = true ↔ a = b
  | Element.mk n1 i1 c1 ch1, Element.mk n2 i2 c2 ch2 => by
    have h := nlBeq_iff ch1 ch2
    simp [eBeq, h, Element.mk.injEq, and_assoc]
def nBeq_iff : ∀ a b : Node, nBeq a b = true ↔ a = b
  | Node.Element e1, Node.Element e2 => by
    have h := eBeq_iff e1 e2
    simp [nBeq, h]
  | Node.Element _, Node.Text _ => by simp [nBeq]
  | Node.Element _, Node.Comment _ => by simp [nBeq]
  | Node.Text _, Node.Element _ => by simp [nBeq]
  | Node.Text t1, Node.Text t2 => by simp [nBeq]
  | Node.Text _, Node.Comment _ => by simp [nBeq]
  | Node.Comment _, Node.Element _ => by simp [nBeq]
  | Node.Comment _, Node.Text _ => by simp [nBeq]
  | Node.Comment t1, Node.Comment t2 => by simp [nBeq]
def nlBeq_iff : ∀ a b : List Node, nlBeq a b = true ↔ a = b
  | [], [] => by simp [nlBeq]
  | [], _ :: _ => by simp [nlBeq]
  | _ :: _, [] => by simp [nlBeq]
  | a :: as1, b :: bs1 => by
    have h1 := nBeq_iff a b
    have h2 := nlBeq_iff as1 bs1
    simp [nlBeq, h1, h2]
end

instance : DecidableEq Element := fun a b => decidable_of_iff (eBeq a b = true) (eBeq_iff a b)

instance : DecidableEq Node := fun a b => decidable_of_iff (nBeq a b = true) (nBeq_iff a b)

instance : BEq Element := ⟨eBeq⟩

instance : LawfulBEq Element where
  eq_of_beq h := (eBeq_iff _ _).mp h
  rfl := (eBeq_iff _ _).mpr rfl

/-- `element_matches_basic_selector` from `html_query.rs`: the pure matching
predicate of one element against one basic selector. -/
def element_matches_basic_selector (e : Element) (basic_selector : BasicSelector) : Bool :=
  match basic_selector with
  | BasicSelector.All => true
  | BasicSelector.Id i =>
    match e.id with
    | some element_id => i == element_id
    | none => false
  | BasicSelector.Element tag => tag == e.name
  | BasicSelector.Class c => e.classes.contains c
  | BasicSelector.IdWithClasses i class_list =>
    match e.id with
    | some element_id =>
      i == element_id && class_list.all (fun c => e.classes.contains c)
    | none => false
  | BasicSelector.ElementWithClasses tag class_list =>
    tag == e.name && class_list.all (fun c => e.classes.contains c)
  | BasicSelector.ClassList class_list => class_list.all (fun c => e.classes.contains c)

/-!
`find_elements_for_selector` from `html_query.rs`.  The `for child in
&element.children { if let Node::Element(..) }` loops become the companion
function `ffsChildren`.  A `Basic` selector matches in place; a
`Hierarchical` selector whose head matches and has a remaining tail
searches the children for the reduced chain, otherwise the children are
searched for the same, unreduced chain.
-/

mutual
def find_elements_for_selector : Element → Selector → List Element
  | e, Selector.Basic basic_selector =>
    if element_matches_basic_selector e basic_selector then [e] else []
  | e@(Element.mk _ _ _ children), Selector.Hierarchical b0 rest =>
    if element_matches_basic_selector e b0 then
      match rest with
      | [] => [e]
      | b1 :: brest => ffsChildren children (Selector.Hierarchical b1 brest)
    else ffsChildren children (Selector.Hierarchical b0 rest)
def ffsChildren : List Node → Selector → List Element
  | [], _ => []
  | Node.Element c :: rest, sel => find_elements_for_selector c sel ++ ffsChildren rest sel
  | Node.Text _ :: rest, sel => ffsChildren rest sel
  | Node.Comment _ :: rest, sel => ffsChildren rest sel
end

/-- The body of the inner de-duplicating loop of `find_elements`:
`if !elements.contains(&matching_element) { elements.push(matching_element) }`. -/
def dedupPush (elements : List Element) (matching_element : Element) : List Element :=
  if elements.contains matching_element then elements else elements ++ [matching_element]

/-- The first loop of `find_elements`: the union over the selector list of
the per-selector matches at this node, de-duplicated by `Vec::contains`
(structural equality of the referenced elements). -/
def frameUnion (e : Element) (selectors : List Selector) : List Element :=
  selectors.foldl (fun acc sel => (find_elements_for_selector e sel).foldl dedupPush acc) []

mutual
/-- `find_elements` from `html_query.rs`: the frame union at this element
followed by the recursion into every element child. -/
def find_elements : Element → List Selector → List Element
  | e@(Element.mk _ _ _ children), selectors =>
    frameUnion e selectors ++ feChildren children selectors
def feChildren : List Node → List Selector → List Element
  | [], _ => []
  | Node.Element c :: rest, selectors => find_elements c selectors ++ feChildren rest selectors
  | Node.Text _ :: rest, selectors => feChildren rest selectors
  | Node.Comment _ :: rest, selectors => feChildren rest selectors
end

/-- The loop of `select`: run `find_elements` over every top-level element
child of the document, appending the results in child order. -/
def selectChildren : List Node → List Selector → List Element
  | [], _ => []
  | Node.Element c :: rest, selectors => find_elements c selectors ++ selectChildren rest selectors
  | Node.Text _ :: rest, selectors => selectChildren rest selectors
  | Node.Comment _ :: rest, selectors => selectChildren rest selectors

/-- `find` from `html_query.rs`: parse, then search the element's subtree. -/
def find (e : Element) (selectors_string : Str) : PRes (List Element) :=
  match parse_selector_string selectors_string with
  | PRes.ok selectors => PRes.ok (find_elements e selectors)
  | PRes.err => PRes.err
  | PRes.panic => PRes.panic

/-- `select` from `html_query.rs`: parse, then search from the document
root over its top-level element children. -/
def select (dom : Dom) (selectors_string : Str) : PRes (List Element) :=
  match parse_selector_string selectors_string with
  | PRes.ok selectors => PRes.ok (selectChildren dom.children selectors)
  | PRes.err => PRes.err
  | PRes.panic => PRes.panic

mutual
/-- Pre-order, depth-first, left-to-right traversal of an element's
subtree: the document order of the spec's ordering contract. -/
def preorder : Element → List Element
  | e@(Element.mk _ _ _ children) => e :: preorderChildren children
def preorderChildren : List Node → List Element
  | [] => []
  | Node.Element c :: rest => preorder c ++ preorderChildren rest
  | Node.Text _ :: rest => preorderChildren rest
  | Node.Comment _ :: rest => preorderChildren rest
end

/-- An element matches some `Selector::Basic` of the list (a `Hierarchical`
selector never matches in place, its frame results are descendants). -/
def anyMatch (selectors : List Selector) (e : Element) : Bool :=
  selectors.any fun sel =>
    match sel with
    | Selector.Basic b => element_matches_basic_selector e b
    | Selector.Hierarchical _ _ => false

/-- Every selector of the list is a `Selector::Basic` (an Atom of the spec). -/
def allAtoms (selectors : List Selector) : Bool :=
  selectors.all fun sel =>
    match sel with
    | Selector.Basic _ => true
    | Selector.Hierarchical _ _ => false

/-- The element children of a node list, in order
(the `if let Node::Element(element) = child` filtering of the source). -/
def elementChildren : List Node → List Element
  | [] => []
  | Node.Element c :: rest => c :: elementChildren rest
  | Node.Text _ :: rest => elementChildren rest
  | Node.Comment _ :: rest => elementChildren rest

/-- `t` lies strictly below `e`, and every node strictly between `e` and `t`
on the witnessing child path fails the predicate `p` (`t` itself may
satisfy it).  This is exactly the region the unreduced-chain descent of
`find_elements_for_selector` walks without consuming the chain head. -/
inductive SearchReach (p : Element → Bool) : Element → Element → Prop where
  | child : ∀ {e c : Element}, Node.Element c ∈ e.children → SearchReach p e c
  | step : ∀ {e c t : Element}, Node.Element c ∈ e.children → p c = false →
      SearchReach p c t → SearchReach p e t

/-!
Concrete documents used by the counterexamples and witnesses below.
-/

/-- A single childless element named `d`. -/
def exLeaf : Element := Element.mk ['d'] none [] []

/-- A document whose only top-level node is a text node. -/
def exDomText : Dom := Dom.mk [Node.Text ['x']]

/-- Leaf `<b>` of the nested-anchor tree `<a><a><b/></a></a>`. -/
def exC1b : Element := Element.mk ['b'] none [] []

/-- Middle `<a>` of the nested-anchor tree. -/
def exC1a2 : Element := Element.mk ['a'] none [] [Node.Element exC1b]

/-- Root `<a>` of the nested-anchor tree. -/
def exC1a1 : Element := Element.mk ['a'] none [] [Node.Element exC1a2]

/-- Innermost `<c>` of the tree `<a><b><c><c/></c></b></a>`. -/
def exC2c2 : Element := Element.mk ['c'] none [] []

/-- Outer `<c>` wrapping `exC2c2`. -/
def exC2c1 : Element := Element.mk ['c'] none [] [Node.Element exC2c2]

/-- The `<b>` level of the `exC2` tree. -/
def exC2b : Element := Element.mk ['b'] none [] [Node.Element exC2c1]

/-- Root `<a>` of the `exC2` tree. -/
def exC2a : Element := Element.mk ['a'] none [] [Node.Element exC2b]

/-- Leaf `<c>` of the chain-witness tree `<a><b><c/></b></a>`. -/
def wC2c : Element := Element.mk ['c'] none [] []

/-- Middle `<b>` of the chain-witness tree. -/
def wC2b : Element := Element.mk ['b'] none [] [Node.Element wC2c]

/-- Root `<a>` of the chain-witness tree. -/
def wC2a : Element := Element.mk ['a'] none [] [Node.Element wC2b]

/-- First child `<c>` of the order-violation tree `<a><c/><b/></a>`. -/
def exC3c : Element := Element.mk ['c'] none [] []

/-- Second child `<b>` of the order-violation tree. -/
def exC3b : Element := Element.mk ['b'] none [] []

/-- Root `<a>` of the order-violation tree. -/
def exC3a : Element := Element.mk ['a'] none [] [Node.Element exC3c, Node.Element exC3b]

/-- A childless `<p>`; the tree `exC9div` contains two distinct nodes with
this exact structure. -/
def exC9p : Element := Element.mk ['p'] none [] []

/-- A `<div>` with two structurally identical `<p>` children. -/
def exC9div : Element :=
  Element.mk ['d', 'i', 'v'] none [] [Node.Element exC9p, Node.Element exC9p]

/-- Child `<b>` of the tree `exC10e`. -/
def exC10b : Element := Element.mk ['b'] none [] []

/-- An `<a>` element with one `<b>` child. -/
def exC10e : Element := Element.mk ['a'] none [] [Node.Element exC10b]

/-- A childless `<a>` element. -/
def wC10 : Element := Element.mk ['a'] none [] []

/-!
Helper lemmas about the de-duplicating fold, the frame union, the
pre-order characterisation of Atom-only queries, and the chain descent.
-/

theorem dedupPush_eq (acc : List Element) (x : Element) :
    dedupPush acc x = if x ∈ acc then acc else acc ++ [x] := by
  simp [dedupPush, List.contains]

theorem mem_foldl_dedupPush (xs : List Element) (acc : List Element) (x : Element) :
    x ∈ xs.foldl dedupPush acc ↔ x ∈ acc ∨ x ∈ xs := by
  induction xs generalizing acc with
  | nil => simp
  | cons a as1 ih =>
    rw [List.foldl_cons, dedupPush_eq]
    by_cases hmem : a ∈ acc
    · rw [if_pos hmem, ih]
      by_cases hxa : x = a
      · subst hxa; simp [hmem]
      · simp [hxa]
    · rw [if_neg hmem, ih]
      simp only [List.mem_append, List.mem_cons, List.mem_singleton]
      tauto

theorem nodup_foldl_dedupPush (xs : List Element) (acc : List Element) (h : acc.Nodup) :
    (xs.foldl dedupPush acc).Nodup := by
  induction xs generalizing acc with
  | nil => simpa
  | cons a as1 ih =>
    rw [List.foldl_cons, dedupPush_eq]
    by_cases hmem : a ∈ acc
    · rw [if_pos hmem]; exact ih _ h
    · rw [if_neg hmem]
      refine ih _ ?_
      simp [List.nodup_append, h, hmem]

theorem mem_foldl_frame (S : List Selector) (e : Element) (acc : List Element) (x : Element) :
    x ∈ S.foldl (fun acc sel => (find_elements_for_selector e sel).foldl dedupPush acc) acc ↔
      x ∈ acc ∨ ∃ sel ∈ S, x ∈ find_elements_for_selector e sel := by
  induction S generalizing acc with
  | nil => simp
  | cons s ss ih =>
    rw [List.foldl_cons, ih, mem_foldl_dedupPush]
    simp only [List.mem_cons]
    constructor
    · rintro (⟨h | h⟩ | ⟨sel, hsel, hx⟩)
      · exact Or.inl h
      · exact Or.inr ⟨s, Or.inl rfl, h⟩
      · exact Or.inr ⟨sel, Or.inr hsel, hx⟩
    · rintro (h | ⟨sel, hsel | hsel, hx⟩)
      · exact Or.inl (Or.inl h)
      · subst hsel; exact Or.inl (Or.inr hx)
      · exact Or.inr ⟨sel, hsel, hx⟩

theorem mem_frameUnion (e : Element) (S : List Selector) (x : Element) :
    x ∈ frameUnion e S ↔ ∃ sel ∈ S, x ∈ find_elements_for_selector e sel := by
  rw [frameUnion, mem_foldl_frame]; simp

theorem nodup_foldl_frame (e : Element) (S : List Selector) :
    ∀ acc : List Element, acc.Nodup →
      (S.foldl (fun acc sel => (find_elements_for_selector e sel).foldl dedupPush acc) acc).Nodup := by
  induction S with
  | nil => intro acc h; simpa
  | cons s ss ih =>
    intro acc h
    rw [List.foldl_cons]
    exact ih _ (nodup_foldl_dedupPush _ _ h)

theorem nodup_frameUnion (e : Element) (S : List Selector) : (frameUnion e S).Nodup :=
  nodup_foldl_frame e S [] (by simp)

theorem foldl_frame_basic (e : Element) :
    ∀ (S : List Selector) (acc : List Element), allAtoms S = true →
      S.foldl (fun acc sel => (find_elements_for_selector e sel).foldl dedupPush acc) acc =
        if anyMatch S e = true ∧ e ∉ acc then acc ++ [e] else acc := by
  intro S
  induction S with
  | nil => intro acc _; simp [anyMatch]
  | cons s ss ih =>
    intro acc h
    cases s with
    | Hierarchical b l => simp [allAtoms] at h
    | Basic b =>
      have hss : allAtoms ss = true := by
        simp [allAtoms] at h ⊢; exact h
      rw [List.foldl_cons]
      by_cases m : element_matches_basic_selector e b = true
      · have hstep : (find_elements_for_selector e (Selector.Basic b)).foldl dedupPush acc =
            if e ∈ acc then acc else acc ++ [e] := by
          rw [find_elements_for_selector, if_pos m, List.foldl_cons, List.foldl_nil, dedupPush_eq]
        rw [hstep, ih _ hss]
        have hany : anyMatch (Selector.Basic b :: ss) e = true := by
          simp [anyMatch, m]
        by_cases hmem : e ∈ acc
        · rw [if_pos hmem]
          rw [if_neg, if_neg]
          · simp [hmem]
          · simp [hmem]
        · rw [if_neg hmem]
          rw [if_neg, if_pos ⟨hany, hmem⟩]
          simp
      · have hstep : (find_elements_for_selector e (Selector.Basic b)).foldl dedupPush acc = acc := by
          rw [find_elements_for_selector, if_neg m, List.foldl_nil]
        rw [hstep, ih _ hss]
        have hany : anyMatch (Selector.Basic b :: ss) e = anyMatch ss e := by
          simp [anyMatch, m]
        rw [hany]

theorem frameUnion_basic (e : Element) (S : List Selector) (h : allAtoms S = true) :
    frameUnion e S = if anyMatch S e = true then [e] else [] := by
  rw [frameUnion, foldl_frame_basic e S [] h]
  by_cases hany : anyMatch S e = true
  · rw [if_pos ⟨hany, by simp⟩, if_pos hany]; rfl
  · rw [if_neg (by simp [hany]), if_neg hany]

mutual
theorem find_elements_basic : ∀ (e : Element) (S : List Selector), allAtoms S = true →
    find_elements e S = (preorder e).filter (fun n => anyMatch S n)
  | Element.mk nm idv cls children, S, h => by
    rw [find_elements, preorder, List.filter_cons, frameUnion_basic _ S h,
      feChildren_basic children S h]
    by_cases hany : anyMatch S (Element.mk nm idv cls children) = true
    · rw [if_pos hany, if_pos (by simpa using hany)]; rfl
    · rw [if_neg hany, if_neg (by simpa using hany)]; rfl
theorem feChildren_basic : ∀ (ns : List Node) (S : List Selector), allAtoms S = true →
    feChildren ns S = (preorderChildren ns).filter (fun n => anyMatch S n)
  | [], S, h => by rw [feChildren, preorderChildren]; rfl
  | Node.Element c :: rest, S, h => by
    rw [feChildren, preorderChildren, List.filter_append, find_elements_basic c S h,
      feChildren_basic rest S h]
  | Node.Text t :: rest, S, h => by
    rw [feChildren, preorderChildren, feChildren_basic rest S h]
  | Node.Comment t :: rest, S, h => by
    rw [feChildren, preorderChildren, feChildren_basic rest S h]
end

theorem mem_ffsChildren_of_mem {c : Element} {ns : List Node} {sel : Selector} {x : Element}
    (hc : Node.Element c ∈ ns) (hx : x ∈ find_elements_for_selector c sel) :
    x ∈ ffsChildren ns sel := by
  induction ns with
  | nil => simp at hc
  | cons n rest ih =>
    rcases List.mem_cons.mp hc with h | h
    · subst h
      rw [ffsChildren]
      exact List.mem_append_left _ hx
    · cases n with
      | Element d => rw [ffsChildren]; exact List.mem_append_right _ (ih h)
      | Text t => rw [ffsChildren]; exact ih h
      | Comment t => rw [ffsChildren]; exact ih h

theorem sreach_ffs_subset {h0 : BasicSelector} {rest : List BasicSelector} {e t x : Element}
    (hr : SearchReach (fun y => element_matches_basic_selector y h0) e t)
    (hx : x ∈ find_elements_for_selector t (Selector.Hierarchical h0 rest)) :
    x ∈ ffsChildren e.children (Selector.Hierarchical h0 rest) := by
  induction hr with
  | child hc => exact mem_ffsChildren_of_mem hc hx
  | step hc hpf hr' ih =>
    rename_i e' c' t'
    refine mem_ffsChildren_of_mem hc ?_
    obtain ⟨nm, idv, cls, ch⟩ := c'
    simp only [find_elements_for_selector, if_neg (show ¬ element_matches_basic_selector
      (Element.mk nm idv cls ch) h0 = true by simpa using hpf)]
    simpa [Element.children] using ih hx

mutual
theorem mem_find_of_pre : ∀ (root : Element) (S : List Selector) (A x : Element),
    A ∈ preorder root → x ∈ frameUnion A S → x ∈ find_elements root S
  | Element.mk nm idv cls children, S, A, x, hA, hx => by
    rw [preorder] at hA
    rw [find_elements]
    rcases List.mem_cons.mp hA with h | h
    · subst h; exact List.mem_append_left _ hx
    · exact List.mem_append_right _ (mem_feChildren_of_pre children S A x h hx)
theorem mem_feChildren_of_pre : ∀ (ns : List Node) (S : List Selector) (A x : Element),
    A ∈ preorderChildren ns → x ∈ frameUnion A S → x ∈ feChildren ns S
  | [], _, A, _, hA, _ => by rw [preorderChildren] at hA; simp at hA
  | Node.Element c :: rest, S, A, x, hA, hx => by
    rw [preorderChildren] at hA
    rw [feChildren]
    rcases List.mem_append.mp hA with h | h
    · exact List.mem_append_left _ (mem_find_of_pre c S A x h hx)
    · exact List.mem_append_right _ (mem_feChildren_of_pre rest S A x h hx)
  | Node.Text t :: rest, S, A, x, hA, hx => by
    rw [preorderChildren] at hA
    rw [feChildren]
    exact mem_feChildren_of_pre rest S A x hA hx
  | Node.Comment t :: rest, S, A, x, hA, hx => by
    rw [preorderChildren] at hA
    rw [feChildren]
    exact mem_feChildren_of_pre rest S A x hA hx
end

theorem selectChildren_eq_flatten (ns : List Node) (S : List Selector) :
    selectChildren ns S = ((elementChildren ns).map fun c => find_elements c S).flatten := by
  induction ns with
  | nil => rw [selectChildren, elementChildren]; rfl
  | cons n rest ih =>
    cases n with
    | Element c => rw [selectChildren, elementChildren, List.map_cons, List.flatten_cons, ih]
    | Text t => rw [selectChildren, elementChildren, ih]
    | Comment t => rw [selectChildren, elementChildren, ih]

theorem splitCharP_of_no_sep (p : Char → Bool) (s : Str) (h : ∀ c ∈ s, p c = false) :
    splitCharP p s = [s] := by
  induction s with
  | nil => rfl
  | cons c rest ih =>
    rw [splitCharP, ih (fun d hd => h d (List.mem_cons_of_mem _ hd))]
    simp [h c (List.mem_cons_self _ _)]

theorem splitCharP_replicate_dot (k : Nat) :
    splitCharP (fun c => c = '.') (List.replicate k '.') = List.replicate (k + 1) [] := by
  induction k with
  | zero => rfl
  | succ n ih =>
    rw [List.replicate_succ, splitCharP, ih, List.replicate_succ]
    simp [List.replicate_succ]

theorem parese_complex_all_dots (n : Nat) :
    parese_complex_selector (List.replicate (n + 1) '.') = PRes.err := by
  have hws : ¬ (List.replicate (n + 1) '.').any rustIsWhitespace = true := by
    rw [List.any_eq_true]
    rintro ⟨c, hc, hpc⟩
    rw [List.eq_of_mem_replicate hc] at hpc
    exact absurd hpc (by decide)
  cases n with
  | zero => decide
  | succ m =>
    rw [parese_complex_selector, if_neg hws, splitChar, splitCharP_replicate_dot,
      List.replicate_succ, List.replicate_succ, List.replicate_succ]
    have hone : parse_individual_selector_string ['.'] = PRes.err := by decide
    simp [finishComplex, hone]

theorem all_dots_err (n : Nat) :
    parse_selector_string (List.replicate (n + 1) '.') = PRes.err := by
  have hsaw : split_ascii_whitespace (List.replicate (n + 1) '.') =
      [List.replicate (n + 1) '.'] := by
    rw [split_ascii_whitespace, splitCharP_of_no_sep]
    · simp [List.replicate_succ]
    · intro c hc
      rw [List.eq_of_mem_replicate hc]
      decide
  rw [parse_selector_string, splitChar, splitCharP_of_no_sep]
  · rw [parse_items, hsaw]
    simp [parese_complex_all_dots n]
  · intro c hc
    rw [List.eq_of_mem_replicate hc]
    decide

theorem ffs_hier_last (e : Element) (b0 : BasicSelector)
    (h : element_matches_basic_selector e b0 = true) :
    find_elements_for_selector e (Selector.Hierarchical b0 []) = [e] := by
  obtain ⟨nm, idv, cls, ch⟩ := e
  simp only [find_elements_for_selector, if_pos h]

theorem ffs_hier_pos (e : Element) (b0 b1 : BasicSelector) (brest : List BasicSelector)
    (h : element_matches_basic_selector e b0 = true) :
    find_elements_for_selector e (Selector.Hierarchical b0 (b1 :: brest)) =
      ffsChildren e.children (Selector.Hierarchical b1 brest) := by
  obtain ⟨nm, idv, cls, ch⟩ := e
  simp only [find_elements_for_selector, if_pos h, Element.children]

/-!
Claim theorems.
-/

/-- C1 (counterexample): on the tree `<a><a><b/></a></a>` the chain selector
`"a b"` — whose anchor `a` matches at two nested ancestors, each producing
the same `<b>` node in a different recursion frame — returns the single
`<b>` node twice: the query does not keep each element reference at most
once. -/
theorem chain_nested_anchor_duplicate :
    element_matches_basic_selector exC1a1 (BasicSelector.Element ['a']) = true ∧
    element_matches_basic_selector exC1a2 (BasicSelector.Element ['a']) = true ∧
    find exC1a1 ['a', ' ', 'b'] = PRes.ok [exC1b, exC1b] := by decide

/-- C1 (amended): de-duplication happens only inside one recursion frame;
a Chain anchor matching at several nested ancestors repeats elements
across frames.  For a selector list of Atom selectors only, over a tree
whose nodes are pairwise structurally distinct, every element does appear
at most once in a query result. -/
theorem atom_query_nodup (e : Element) (S : List Selector)
    (h1 : allAtoms S = true) (h2 : (preorder e).Nodup) : (find_elements e S).Nodup := by
  rw [find_elements_basic e S h1]
  exact h2.filter _

/-- Witness for `atom_query_nodup` at a concrete element and selector list. -/
theorem atom_query_nodup_witness :
    (allAtoms [Selector.Basic BasicSelector.All] = true ∧ (preorder exLeaf).Nodup) ∧
    (find_elements exLeaf [Selector.Basic BasicSelector.All]).Nodup :=
  ⟨⟨by decide, by decide⟩,
    atom_query_nodup exLeaf [Selector.Basic BasicSelector.All] (by decide) (by decide)⟩

/-- C2 (counterexample): on `<a><b><c><c/></c></b></a>` the chain `"a b c"`
misses the inner `<c>`: that element matches the last atom and has a full
descendant path (`a` above `b` above it), yet only the outer `<c>` is
returned, because the search for the last atom stops at its shallowest
match. -/
theorem chain_deep_last_atom_missed :
    element_matches_basic_selector exC2c2 (BasicSelector.Element ['c']) = true ∧
    find exC2a ['a', ' ', 'b', ' ', 'c'] = PRes.ok [exC2c1] ∧
    exC2c2 ≠ exC2c1 := by decide

/-- C2 (amended): for a chain `a b c`, an element `M` matching `c` is
returned whenever there is a witness path — an `a`-matching node `A`
anywhere in the tree, a `b`-matching node `B` strictly below `A` with no
`b`-matching node strictly between `A` and `B`, and `M` strictly below `B`
with no `c`-matching node strictly between `B` and `M`.  (Without the two
no-intermediate-match conditions the statement is false, as the
counterexample shows.) -/
theorem chain_path_membership (root A B M : Element) (a b c : BasicSelector)
    (hA : A ∈ preorder root)
    (hAa : element_matches_basic_selector A a = true)
    (hAB : SearchReach (fun y => element_matches_basic_selector y b) A B)
    (hBb : element_matches_basic_selector B b = true)
    (hBM : SearchReach (fun y => element_matches_basic_selector y c) B M)
    (hMc : element_matches_basic_selector M c = true) :
    M ∈ find_elements root [Selector.Hierarchical a [b, c]] := by
  have h1 : M ∈ find_elements_for_selector M (Selector.Hierarchical c []) := by
    rw [ffs_hier_last M c hMc]
    exact List.mem_singleton_self M
  have h2 : M ∈ ffsChildren B.children (Selector.Hierarchical c []) :=
    sreach_ffs_subset hBM h1
  have h3 : M ∈ find_elements_for_selector B (Selector.Hierarchical b [c]) := by
    rw [ffs_hier_pos B b c [] hBb]
    exact h2
  have h4 : M ∈ ffsChildren A.children (Selector.Hierarchical b [c]) :=
    sreach_ffs_subset hAB h3
  have h5 : M ∈ find_elements_for_selector A (Selector.Hierarchical a [b, c]) := by
    rw [ffs_hier_pos A a b [c] hAa]
    exact h4
  have h6 : M ∈ frameUnion A [Selector.Hierarchical a [b, c]] := by
    rw [mem_frameUnion]
    exact ⟨Selector.Hierarchical a [b, c], List.mem_singleton_self _, h5⟩
  exact mem_find_of_pre root _ A M hA h6

/-- Witness for `chain_path_membership` on the tree `<a><b><c/></b></a>`. -/
theorem chain_path_membership_witness :
    (wC2a ∈ preorder wC2a ∧
     element_matches_basic_selector wC2a (BasicSelector.Element ['a']) = true ∧
     element_matches_basic_selector wC2b (BasicSelector.Element ['b']) = true ∧
     element_matches_basic_selector wC2c (BasicSelector.Element ['c']) = true) ∧
    wC2c ∈ find_elements wC2a [Selector.Hierarchical (BasicSelector.Element ['a'])
      [BasicSelector.Element ['b'], BasicSelector.Element ['c']]] :=
  ⟨⟨by decide, by decide, by decide, by decide⟩,
    chain_path_membership wC2a wC2a wC2b wC2c (BasicSelector.Element ['a'])
      (BasicSelector.Element ['b']) (BasicSelector.Element ['c'])
      (by decide) (by decide)
      (SearchReach.child (by decide)) (by decide)
      (SearchReach.child (by decide)) (by decide)⟩

/-- C3 (counterexample): on `<a><c/><b/></a>` the mixed selector list
`"a b,c"` returns `[<b>, <c>]`, although `<c>` precedes `<b>` in
pre-order document order: with a Chain selector in the list the result is
not sorted in document order. -/
theorem mixed_selector_list_breaks_order :
    find exC3a ['a', ' ', 'b', ',', 'c'] = PRes.ok [exC3b, exC3c] ∧
    (preorder exC3a).indexOf exC3c < (preorder exC3a).indexOf exC3b := by decide

/-- C3 (amended): for a selector list of Atom selectors only, the query
result is exactly the pre-order, depth-first, left-to-right document-order
traversal filtered to the matching nodes — in particular a sublist of the
document order.  A Chain selector emits descendants inside an earlier
frame, which can precede later frames' nodes and break document order. -/
theorem atom_query_document_order (e : Element) (S : List Selector)
    (h : allAtoms S = true) :
    find_elements e S = (preorder e).filter (fun n => anyMatch S n) ∧
    (find_elements e S).Sublist (preorder e) := by
  refine ⟨find_elements_basic e S h, ?_⟩
  rw [find_elements_basic e S h]
  exact List.filter_sublist _

/-- Witness for `atom_query_document_order` at a concrete element. -/
theorem atom_query_document_order_witness :
    allAtoms [Selector.Basic BasicSelector.All] = true ∧
    (find_elements exC10e [Selector.Basic BasicSelector.All] =
      (preorder exC10e).filter (fun n => anyMatch [Selector.Basic BasicSelector.All] n) ∧
     (find_elements exC10e [Selector.Basic BasicSelector.All]).Sublist (preorder exC10e)) :=
  ⟨by decide, atom_query_document_order exC10e [Selector.Basic BasicSelector.All] (by decide)⟩

/-- C4: once parsing succeeds, both entry points return `Ok` for every
tree: `find` returns the subtree search result, `select` returns the
top-level concatenation, and on a document without element children
`select` returns the empty list — the search itself has no error path. -/
theorem query_total_after_parse (dom dom0 : Dom) (e : Element) (s : Str)
    (sels : List Selector)
    (h : parse_selector_string s = PRes.ok sels)
    (hno : elementChildren dom0.children = []) :
    find e s = PRes.ok (find_elements e sels) ∧
    select dom s = PRes.ok (selectChildren dom.children sels) ∧
    select dom0 s = PRes.ok [] := by
  refine ⟨?_, ?_, ?_⟩
  · rw [find, h]
  · rw [select, h]
  · rw [select, h]
    show PRes.ok (selectChildren dom0.children sels) = PRes.ok []
    rw [selectChildren_eq_flatten, hno]
    rfl

/-- Witness for `query_total_after_parse` with the selector `"li"`, an
arbitrary element and a document whose only child is a text node. -/
theorem query_total_after_parse_witness :
    (parse_selector_string ['l', 'i'] =
        PRes.ok [Selector.Basic (BasicSelector.Element ['l', 'i'])] ∧
     elementChildren exDomText.children = []) ∧
    (find exLeaf ['l', 'i'] =
        PRes.ok (find_elements exLeaf [Selector.Basic (BasicSelector.Element ['l', 'i'])]) ∧
     select exDomText ['l', 'i'] =
        PRes.ok (selectChildren exDomText.children
          [Selector.Basic (BasicSelector.Element ['l', 'i'])]) ∧
     select exDomText ['l', 'i'] = PRes.ok []) :=
  ⟨⟨by decide, by decide⟩,
    query_total_after_parse exDomText exDomText exLeaf ['l', 'i']
      [Selector.Basic (BasicSelector.Element ['l', 'i'])] (by decide) (by decide)⟩

/-- C5: the id parser rejects a lone `#` and ids with a second `#` beyond
the first id character (`"#a#b"`), but the duplicated
`id[1..].contains('#') || id[1..].contains('#')` check skips the first
character of the id value, so `"##b"` is accepted as the id `"#b"` instead
of being rejected. -/
theorem id_double_hash_bug :
    parse_selector_string ['#'] = PRes.err ∧
    parse_selector_string ['#', 'a', '#', 'b'] = PRes.err ∧
    parse_selector_string ['#', '#', 'b'] =
      PRes.ok [Selector.Basic (BasicSelector.Id ['#', 'b'])] := by decide

/-- C6 (counterexample): the selector `"a."`, a compound with a trailing
dot (an empty class name), is not rejected: it parses successfully to a
tag-with-classes compound whose required class list holds the empty
string. -/
theorem trailing_dot_accepted :
    parse_selector_string ['a', '.'] =
      PRes.ok [Selector.Basic (BasicSelector.ElementWithClasses ['a'] [[]])] := by decide

/-- C6 (amended): a lone `.` and every selector consisting solely of
consecutive dots yield a structured error with no partial result, but an
empty class name inside a larger compound — a trailing or doubled dot as
in `"a."` or `"a..b"` — is accepted and produces empty-string required
classes. -/
theorem empty_class_rejection :
    (∀ n : Nat, parse_selector_string (List.replicate (n + 1) '.') = PRes.err) ∧
    parse_selector_string ['a', '.', '.', 'b'] =
      PRes.ok [Selector.Basic (BasicSelector.ElementWithClasses ['a'] [[], ['b']])] :=
  ⟨all_dots_err, by decide⟩

/-- C7: parsing is not total.  A compound token starting with the
multi-byte character `é` — a valid tag name under the spec's grammar —
panics, because the `assert!(!selector_string[1..].contains('.'))` check
slices at byte 1, which is not a character boundary; likewise a token
containing the non-ASCII whitespace U+00A0 survives
`split_ascii_whitespace` and then fails the
`assert!(!selector_string.contains(char::is_whitespace))`. -/
theorem parse_panics_on_multibyte :
    parse_selector_string ['é'] = PRes.panic ∧
    parse_selector_string ['a', '\u00A0', 'b'] = PRes.panic := by decide

/-- C8: the basic matcher is a pure total predicate with
`matches(node, Universal)` true for every element, and
`matches(node, ByTag(t))` true exactly when the element's tag equals `t`
under exact, case-sensitive string equality. -/
theorem matcher_universal_and_tag (e : Element) (t : Str) :
    element_matches_basic_selector e BasicSelector.All = true ∧
    (element_matches_basic_selector e (BasicSelector.Element t) = true ↔ e.name = t) := by
  refine ⟨rfl, ?_⟩
  simp only [element_matches_basic_selector, beq_iff_eq]
  exact eq_comm

/-- C9 (counterexample): in a `<div>` with two distinct but structurally
identical `<p>` children, the chain `"div p"` matches both children in the
same recursion frame, yet the result keeps only one entry — the frame
de-duplication compares by structural equality (`Vec::contains` on the
referenced values), not by node identity. -/
theorem structurally_equal_siblings_collapsed :
    exC9div.children = [Node.Element exC9p, Node.Element exC9p] ∧
    find exC9div ['d', 'i', 'v', ' ', 'p'] = PRes.ok [exC9p] := by decide

/-- C9 (amended): within one traversal frame the union over the selector
list skips a matched node exactly when a structurally equal node is
already present: the frame's result list is duplicate-free and contains
precisely the nodes matched by some selector of the list, with
structurally equal nodes at different tree positions collapsed into one
entry. -/
theorem frame_union_dedup (e : Element) (S : List Selector) :
    (frameUnion e S).Nodup ∧
    (∀ x : Element, x ∈ frameUnion e S ↔ ∃ sel ∈ S, x ∈ find_elements_for_selector e sel) :=
  ⟨nodup_frameUnion e S, fun x => mem_frameUnion e S x⟩

/-- C10 (counterexample): for the element `<a><b/></a>` and the selector
list `"a b,a"`, the element matches the second selector in the list, yet
the first element of `find`'s result is the `<b>` child produced by the
Chain selector, not the element itself. -/
theorem find_self_not_first :
    element_matches_basic_selector exC10e (BasicSelector.Element ['a']) = true ∧
    find exC10e ['a', ' ', 'b', ',', 'a'] = PRes.ok [exC10b, exC10e] ∧
    exC10b ≠ exC10e := by decide

/-- C10 (amended): `find(E, s)` does consider `E` itself as a match
candidate, and when the parsed list contains only Atom selectors and `E`
matches one of them, `E` is the first element of the result (a Chain
selector earlier in the list can emit descendants of `E` before `E`);
`select(dom, s)` returns exactly the concatenation, in child order, of the
`find_elements` results over the document's top-level element children. -/
theorem find_select_entry_structure (E : Element) (dom : Dom) (s : Str)
    (sels : List Selector)
    (hp : parse_selector_string s = PRes.ok sels)
    (hatoms : allAtoms sels = true) (hmatch : anyMatch sels E = true) :
    (find_elements E sels).head? = some E ∧
    find E s = PRes.ok (find_elements E sels) ∧
    select dom s = PRes.ok (((elementChildren dom.children).map fun c =>
      find_elements c sels).flatten) := by
  refine ⟨?_, ?_, ?_⟩
  · rw [find_elements_basic E sels hatoms]
    obtain ⟨nm, idv, cls, ch⟩ := E
    rw [preorder, List.filter_cons, if_pos (by simpa using hmatch)]
    rfl
  · rw [find, hp]
  · rw [select, hp]
    show PRes.ok (selectChildren dom.children sels) = _
    rw [selectChildren_eq_flatten]

/-- Witness for `find_select_entry_structure` with the selector `"a"`. -/
theorem find_select_entry_structure_witness :
    (parse_selector_string ['a'] =
        PRes.ok [Selector.Basic (BasicSelector.Element ['a'])] ∧
     allAtoms [Selector.Basic (BasicSelector.Element ['a'])] = true ∧
     anyMatch [Selector.Basic (BasicSelector.Element ['a'])] wC10 = true) ∧
    ((find_elements wC10 [Selector.Basic (BasicSelector.Element ['a'])]).head? = some wC10 ∧
     find wC10 ['a'] =
        PRes.ok (find_elements wC10 [Selector.Basic (BasicSelector.Element ['a'])]) ∧
     select exDomText ['a'] = PRes.ok (((elementChildren exDomText.children).map fun c =>
        find_elements c [Selector.Basic (BasicSelector.Element ['a'])]).flatten)) :=
  ⟨⟨by decide, by decide, by decide⟩,
    find_select_entry_structure wC10 exDomText ['a']
      [Selector.Basic (BasicSelector.Element ['a'])] (by decide) (by decide) (by decide)⟩
